import Mathlib

/-!
Verification development for the `go-runner` graceful-shutdown orchestrator
(`runner.go`, package `go_runner`).

The orchestrator (`AppsRunner.Run`) launches one goroutine per registered
non-hook component that calls the component's `Start`, a single shutdown
coordinator goroutine that — once the shared context is cancelled — calls
`Stop` on every component whose `started` flag is set and then every
shutdown hook, and a signal-listener goroutine that on an OS interrupt
cancels the context and returns the sentinel `ErrInterruptedBySignal`.
All three groups run in one `errgroup`, whose `Wait` returns the error of
the FIRST goroutine to return a non-nil error.

We embed one run as a deterministic function of
  * the registry (`List AppEntry`), and
  * a schedule (`Sched`): which of the three sources triggered the
    cancellation, and which start tasks had completed by the time the
    coordinator reads the `started` flags (the unsynchronized-flag race
    window acknowledged by the package is represented by `startDone`).

The linearization fixes only orderings that the source's happens-before
structure forces:
  * the cancellation trigger's error is the first one recorded in the
    errgroup (a failing start calls `cancel()` and returns its error before
    the coordinator — woken by that very cancellation — can finish its stop
    loop; the signal listener returns the sentinel immediately after
    calling `cancel()`);
  * start tasks that completed before the flag snapshot are linearized
    before the coordinator's stop loop, the remaining ones after it;
  * the coordinator performs all stop calls and then all hook calls itself,
    sequentially, in registry order (source lines 105–134).

`GoErr.interrupted` models the package's sentinel error value
`ErrInterruptedBySignal` (declared outside the orchestration file); per the
spec it is an ordinary distinguished error value compared by `errors.Is`,
i.e. by identity.
-/

/-- Go `error` values as they matter to the orchestrator: `interrupted`
is the sentinel `ErrInterruptedBySignal`, `userErr s` any other error. -/
inductive GoErr where
  | interrupted : GoErr
  | userErr : String → GoErr
  deriving DecidableEq, Repr

/-- One entry of `AppsRunner.apps` (Go struct `appStruct`).
`start = none` models a nil `Start` field (the entry is a shutdown hook);
`start = some r` models a callable `Start` whose invocation returns `r`
(`none` = success, `some e` = failure). `stop` likewise models the `Stop`
field. -/
structure AppEntry where
  name : String
  start : Option (Option GoErr)
  stop : Option (Option GoErr)
  deriving DecidableEq, Repr

/-- Behaviour of a value implementing the Go `app` interface: the results
of its `Start()` and `Stop()` methods. -/
structure AppInst where
  startImpl : Option GoErr
  stopImpl : Option GoErr
  deriving DecidableEq, Repr

/-- Out-of-range default used with `List.getD`; it has no start and no
stop, so it is skipped by every phase. -/
def noEntry : AppEntry := ⟨"", none, none⟩

/-- Entry `i` of the registry (`r.apps[i]`). -/
def appAt (apps : List AppEntry) (i : Nat) : AppEntry :=
  apps.getD i noEntry

/-- `RegisterNamedApp`: appends an entry whose `Start`/`Stop` are the
instance's methods (runner.go lines 49–55). -/
def RegisterNamedApp (r : List AppEntry) (nm : String) (inst : AppInst) :
    List AppEntry :=
  r ++ [⟨nm, some inst.startImpl, some inst.stopImpl⟩]

/-- `RegisterApp`: registers under the empty name (runner.go lines 44–46). -/
def RegisterApp (r : List AppEntry) (inst : AppInst) : List AppEntry :=
  RegisterNamedApp r "" inst

/-- `RegisterShutdownHook`: a nil callback is ignored; otherwise an entry
with nil `Start` (and zero-value name "") is appended (runner.go
lines 58–67). -/
def RegisterShutdownHook (r : List AppEntry) (stopAct : Option (Option GoErr)) :
    List AppEntry :=
  match stopAct with
  | none => r
  | some act => r ++ [⟨"", none, some act⟩]

/-- Log levels of the consumed `Logger` interface. -/
inductive LogLevel where
  | debug : LogLevel
  | info : LogLevel
  | error : LogLevel
  deriving DecidableEq, Repr

/-- Observable events of one run: component calls/returns (tagged with the
registry index) and structured log events (level, message, `app` field;
"" when the log carries no app field). -/
inductive Event where
  | startCall : Nat → Event
  | startRet : Nat → Option GoErr → Event
  | stopCall : Nat → Event
  | stopRet : Nat → Option GoErr → Event
  | hookCall : Nat → Event
  | hookRet : Nat → Option GoErr → Event
  | logEv : LogLevel → String → String → Event
  deriving DecidableEq, Repr

/-- Which of the three concurrent sources cancelled the shared context
first: the failure of start task `k`, the OS signal listener, or the
caller's own context. -/
inductive Trigger where
  | componentFailure : Nat → Trigger
  | externalSignal : Trigger
  | callerCancelled : Trigger
  deriving Repr

/-- Schedule of one run: the shutdown trigger, and per start-task index
whether that task had completed before the coordinator read the `started`
flags (runner.go line 111 reads the flags without synchronization, so a
still-in-flight start is observed as not started). -/
structure Sched where
  trigger : Trigger
  startDone : Nat → Bool

/-- The error a failing `Start` of this entry returns, if any. -/
def startErrOf (a : AppEntry) : Option GoErr :=
  match a.start with
  | some (some e) => some e
  | _ => none

/-- The `started[i]` flag as the coordinator reads it: set iff the start
task finished before the read and `Start` returned nil (runner.go
line 98). -/
def flagOf (done : Nat → Bool) (i : Nat) (a : AppEntry) : Bool :=
  done i && (a.start == some (none : Option GoErr))

/-- Generic indexed concatenation: the block for entry `i` of the
registry, in registry order. Every phase of the run is an instance. -/
def idxMap (blk : Nat → AppEntry → List Event) : Nat → List AppEntry → List Event
  | _, [] => []
  | j, a :: rest => blk j a ++ idxMap blk (j + 1) rest

/-- Launch block (runner.go lines 81–102): hooks are skipped; otherwise
the "start application" debug log and the `Start` invocation. -/
def startBlk (j : Nat) (a : AppEntry) : List Event :=
  match a.start with
  | none => []
  | some _ => [.logEv .debug "start application" a.name, .startCall j]

/-- Completion block of one start task (runner.go lines 90–100): the
"application started" / "application finished" log and the task's return
value. -/
def startRetBlk (done : Nat → Bool) (want : Bool) (j : Nat) (a : AppEntry) :
    List Event :=
  match a.start with
  | none => []
  | some r =>
    if done j = want then
      match r with
      | none => [.logEv .debug "application started" a.name, .startRet j none]
      | some e =>
        [.logEv .debug "application finished" a.name, .startRet j (some e)]
    else []

/-- Stop block of the coordinator (runner.go lines 110–120): skip when
`Stop` is nil or the flag is unset; otherwise log, call `Stop`, and log
the error if it failed. -/
def stopBlk (done : Nat → Bool) (j : Nat) (a : AppEntry) : List Event :=
  match a.stop with
  | none => []
  | some r =>
    if flagOf done j a then
      [.logEv .debug "stop application" a.name, .stopCall j, .stopRet j r] ++
        (match r with
         | some _ => [.logEv .error "application stop error" a.name]
         | none => [])
    else []

/-- Hook block of the coordinator (runner.go lines 123–131): entries with
nil `Start` and non-nil `Stop` are called unconditionally. -/
def hookBlk (j : Nat) (a : AppEntry) : List Event :=
  match a.start, a.stop with
  | none, some r =>
    [.logEv .debug "calling shutdown hook" a.name, .hookCall j, .hookRet j r] ++
      (match r with
       | some _ => [.logEv .error "shutdown hook error" a.name]
       | none => [])
  | _, _ => []

/-- The coordinator's `err` accumulator over the stop loop (runner.go
lines 108–120): each executed failing stop overwrites it. -/
def stopLoopErr (done : Nat → Bool) : Nat → List AppEntry → Option GoErr → Option GoErr
  | _, [], acc => acc
  | j, a :: rest, acc =>
    stopLoopErr done (j + 1) rest
      (match a.stop with
       | some (some e) => if flagOf done j a then some e else acc
       | _ => acc)

/-- The coordinator's `err` accumulator over the hook loop (runner.go
lines 123–131): each failing hook overwrites it. -/
def hookLoopErr : List AppEntry → Option GoErr → Option GoErr
  | [], acc => acc
  | a :: rest, acc =>
    hookLoopErr rest
      (match a.start, a.stop with
       | none, some (some e) => some e
       | _, _ => acc)

/-- The value the coordinator goroutine returns: the last stop/hook error,
or nil. -/
def coordErr (done : Nat → Bool) (apps : List AppEntry) : Option GoErr :=
  hookLoopErr apps (stopLoopErr done 0 apps none)

/-- First failing start in registry order (used when the caller's own
cancellation triggered shutdown: start errors are then the earliest
recorded candidates). -/
def firstStartErr : List AppEntry → Option GoErr
  | [] => none
  | a :: rest =>
    match a.start with
    | some (some e) => some e
    | _ => firstStartErr rest

/-- The first non-nil error recorded in the errgroup, i.e. the value
`eg.Wait()` returns (runner.go line 151).  The goroutine that caused the
cancellation records its error before anyone else can: a failing start
returns its error right after calling `cancel()`; the signal listener
returns the sentinel right after calling `cancel()`; under caller
cancellation the listener returns nil, so the first recorded error is the
earliest failing start if any, else the coordinator's stop/hook error. -/
def egFirstErr (apps : List AppEntry) (s : Sched) : Option GoErr :=
  match s.trigger with
  | .componentFailure k => startErrOf (appAt apps k)
  | .externalSignal => some .interrupted
  | .callerCancelled =>
    match firstStartErr apps with
    | some e => some e
    | none => coordErr s.startDone apps

/-- Epilogue of `Run` (runner.go lines 151–161): the sentinel is turned
into a success with a "shutting down by signal" debug log; any other
first error is returned after a "terminating with error" log; success
paths log "application was stopped". -/
def finalize (first : Option GoErr) : List Event × Option GoErr :=
  match first with
  | none => ([.logEv .info "application was stopped" ""], none)
  | some .interrupted =>
    ([.logEv .debug "shutting down by signal" "",
      .logEv .info "application was stopped" ""], none)
  | some e => ([.logEv .error "terminating with error" ""], some e)

/-- The linearized observable trace of one run of `AppsRunner.Run`. -/
def runTrace (apps : List AppEntry) (s : Sched) : List Event :=
  idxMap startBlk 0 apps ++
    idxMap (startRetBlk s.startDone true) 0 apps ++
    idxMap (stopBlk s.startDone) 0 apps ++
    idxMap hookBlk 0 apps ++
    idxMap (startRetBlk s.startDone false) 0 apps ++
    (finalize (egFirstErr apps s)).1

/-- The error value `AppsRunner.Run` returns (`none` = nil = success). -/
def runResult (apps : List AppEntry) (s : Sched) : Option GoErr :=
  (finalize (egFirstErr apps s)).2

/-- Number of occurrences of an event in a trace. -/
def countEv (es : List Event) (e : Event) : Nat :=
  es.count e

/-- Every entry's `Start` and `Stop`, where present, succeed. -/
def appOk (a : AppEntry) : Bool :=
  (match a.start with
   | some (some _) => false
   | _ => true) &&
  (match a.stop with
   | some (some _) => false
   | _ => true)

/-- All registered starts, stops and hooks succeed. -/
def allOk (apps : List AppEntry) : Bool :=
  apps.all appOk

/-! ### Generic lemmas about the phase combinator -/

theorem mem_idxMap {blk : Nat → AppEntry → List Event} {e : Event} :
    ∀ {rest : List AppEntry} {j : Nat}, e ∈ idxMap blk j rest →
      ∃ j' a', e ∈ blk j' a'
  | [], _, h => by simp [idxMap] at h
  | a :: rest, j, h => by
    rw [idxMap, List.mem_append] at h
    rcases h with h | h
    · exact ⟨j, a, h⟩
    · exact mem_idxMap h

theorem idxMap_count {blk : Nat → AppEntry → List Event} {ev : Event} {i : Nat}
    (h0 : ∀ j a, j ≠ i → ev ∉ blk j a) :
    ∀ (rest : List AppEntry) (j : Nat),
      (idxMap blk j rest).count ev =
        if j ≤ i ∧ i < j + rest.length then
          (blk i (rest.getD (i - j) noEntry)).count ev
        else 0
  | [], j => by
    have hno : ¬ (j ≤ i ∧ i < j + ([] : List AppEntry).length) := by
      simp only [List.length_nil]; omega
    simp only [idxMap, List.count_nil, if_neg hno]
  | a :: rest, j => by
    rw [idxMap, List.count_append, idxMap_count h0 rest (j + 1)]
    by_cases hji : j = i
    · subst hji
      have h1 : ¬ (j + 1 ≤ j ∧ j < j + 1 + rest.length) := by omega
      have h2 : j ≤ j ∧ j < j + (a :: rest).length := by
        simp only [List.length_cons]; omega
      rw [if_neg h1, if_pos h2]
      simp
    · have hz : (blk j a).count ev = 0 :=
        List.count_eq_zero.mpr (h0 j a hji)
      rw [hz]
      by_cases hc : j + 1 ≤ i ∧ i < j + 1 + rest.length
      · have hc' : j ≤ i ∧ i < j + (a :: rest).length := by
          simp only [List.length_cons]; omega
        rw [if_pos hc, if_pos hc']
        have hm : i - j = (i - (j + 1)) + 1 := by omega
        rw [hm, List.getD_cons_succ]
        simp
      · have hc' : ¬ (j ≤ i ∧ i < j + (a :: rest).length) := by
          simp only [List.length_cons]; omega
        rw [if_neg hc, if_neg hc']

theorem idxMap_count_zero {blk : Nat → AppEntry → List Event} {ev : Event}
    (h : ∀ j a, ev ∉ blk j a) (rest : List AppEntry) (j : Nat) :
    (idxMap blk j rest).count ev = 0 := by
  refine List.count_eq_zero.mpr ?_
  intro hm
  obtain ⟨j', a', hm'⟩ := mem_idxMap hm
  exact h j' a' hm'

theorem mem_idxMap_intro {blk : Nat → AppEntry → List Event} {e : Event} :
    ∀ (rest : List AppEntry) (j m : Nat), m < rest.length →
      e ∈ blk (j + m) (rest.getD m noEntry) → e ∈ idxMap blk j rest
  | [], _, m, hm, _ => by simp at hm
  | a :: rest, j, 0, _, h => by
    rw [idxMap, List.mem_append]
    exact Or.inl (by simpa using h)
  | a :: rest, j, m + 1, hm, h => by
    rw [idxMap, List.mem_append]
    refine Or.inr (mem_idxMap_intro rest (j + 1) m (by simpa using hm) ?_)
    have : j + 1 + m = j + (m + 1) := by omega
    rw [this]
    simpa using h

theorem pos_split {L X Y : List Event} (hL : L = X ++ Y)
    {P Q : Event → Prop}
    (hY : ∀ e ∈ Y, ¬ P e) (hX : ∀ e ∈ X, ¬ Q e)
    {p q : Nat} {ep eb : Event}
    (hp : L.get? p = some ep) (hP : P ep)
    (hq : L.get? q = some eb) (hQ : Q eb) : p < q := by
  subst hL
  have hpX : p < X.length := by
    by_contra hcon
    push_neg at hcon
    rw [List.get?_append_right hcon] at hp
    exact hY _ (List.get?_mem hp) hP
  have hqY : X.length ≤ q := by
    by_contra hcon
    push_neg at hcon
    rw [List.get?_append hcon] at hq
    exact hX _ (List.get?_mem hq) hQ
  omega

/-! ### Shape of each block's events -/

theorem mem_startBlk {e : Event} {j : Nat} {a : AppEntry}
    (h : e ∈ startBlk j a) :
    e = .logEv .debug "start application" a.name ∨ e = .startCall j := by
  unfold startBlk at h
  split at h
  · simp at h
  · simpa using h

theorem mem_startRetBlk {done : Nat → Bool} {want : Bool} {e : Event}
    {j : Nat} {a : AppEntry} (h : e ∈ startRetBlk done want j a) :
    done j = want ∧
      (e = .logEv .debug "application started" a.name ∨
       e = .logEv .debug "application finished" a.name ∨
       ∃ r, e = .startRet j r) := by
  unfold startRetBlk at h
  split at h
  · simp at h
  · split at h
    · rename_i hd
      refine ⟨hd, ?_⟩
      split at h
      · rcases (by simpa using h : _ ∨ _) with h' | h'
        · exact Or.inl h'
        · exact Or.inr (Or.inr ⟨none, h'⟩)
      · rcases (by simpa using h : _ ∨ _) with h' | h'
        · exact Or.inr (Or.inl h')
        · exact Or.inr (Or.inr ⟨_, h'⟩)
    · simp at h

theorem mem_stopBlk {done : Nat → Bool} {e : Event} {j : Nat} {a : AppEntry}
    (h : e ∈ stopBlk done j a) :
    e = .logEv .debug "stop application" a.name ∨
    e = .logEv .error "application stop error" a.name ∨
    e = .stopCall j ∨ ∃ r, e = .stopRet j r := by
  unfold stopBlk at h
  split at h
  · simp at h
  · split at h
    · split at h
      · rcases (by simpa using h : _ ∨ _ ∨ _ ∨ _) with h' | h' | h' | h'
        · exact Or.inl h'
        · exact Or.inr (Or.inr (Or.inl h'))
        · exact Or.inr (Or.inr (Or.inr ⟨_, h'⟩))
        · exact Or.inr (Or.inl h')
      · rcases (by simpa using h : _ ∨ _ ∨ _) with h' | h' | h'
        · exact Or.inl h'
        · exact Or.inr (Or.inr (Or.inl h'))
        · exact Or.inr (Or.inr (Or.inr ⟨_, h'⟩))
    · simp at h

theorem mem_hookBlk {e : Event} {j : Nat} {a : AppEntry}
    (h : e ∈ hookBlk j a) :
    e = .logEv .debug "calling shutdown hook" a.name ∨
    e = .logEv .error "shutdown hook error" a.name ∨
    e = .hookCall j ∨ ∃ r, e = .hookRet j r := by
  unfold hookBlk at h
  split at h
  · split at h
    · rcases (by simpa using h : _ ∨ _ ∨ _ ∨ _) with h' | h' | h' | h'
      · exact Or.inl h'
      · exact Or.inr (Or.inr (Or.inl h'))
      · exact Or.inr (Or.inr (Or.inr ⟨_, h'⟩))
      · exact Or.inr (Or.inl h')
    · rcases (by simpa using h : _ ∨ _ ∨ _) with h' | h' | h'
      · exact Or.inl h'
      · exact Or.inr (Or.inr (Or.inl h'))
      · exact Or.inr (Or.inr (Or.inr ⟨_, h'⟩))
  · simp at h

theorem mem_finalize {x : Option GoErr} {e : Event}
    (h : e ∈ (finalize x).1) : ∃ lv s, e = .logEv lv s "" := by
  unfold finalize at h
  split at h
  · exact ⟨.info, "application was stopped", by simpa using h⟩
  · rcases (by simpa using h : _ ∨ _) with h' | h'
    · exact ⟨.debug, "shutting down by signal", h'⟩
    · exact ⟨.info, "application was stopped", h'⟩
  · exact ⟨.error, "terminating with error", by simpa using h⟩

/-! ### Stop/hook errors of a trace and the coordinator's accumulator -/

/-- The error carried by a failing stop or hook return event, if any. -/
def shutdownErrOf : Event → Option GoErr
  | .stopRet _ (some e) => some e
  | .hookRet _ (some e) => some e
  | _ => none

/-- The stop/hook errors of a trace, in order of occurrence. -/
def shutdownErrs (L : List Event) : List GoErr :=
  L.filterMap shutdownErrOf

/-- Last element of the list if any, else the accumulator: the shape of
the coordinator's last-error-wins bookkeeping. -/
def lastOr : List GoErr → Option GoErr → Option GoErr
  | [], acc => acc
  | e :: r, _ => lastOr r (some e)

theorem lastOr_append :
    ∀ (A B : List GoErr) (acc : Option GoErr),
      lastOr (A ++ B) acc = lastOr B (lastOr A acc)
  | [], _, _ => rfl
  | e :: A, B, acc => by
    rw [List.cons_append, lastOr, lastOr, lastOr_append]

theorem lastOr_eq_getLast? :
    ∀ (l : List GoErr) (acc : Option GoErr),
      lastOr l acc = match l.getLast? with | some x => some x | none => acc
  | [], acc => by simp [lastOr]
  | e :: r, acc => by
    rw [lastOr, lastOr_eq_getLast? r (some e)]
    cases r with
    | nil => simp
    | cons b t =>
      have hs : (b :: t).getLast?.isSome := by
        rw [List.getLast?_isSome]
        simp
      obtain ⟨x, hx⟩ := Option.isSome_iff_exists.mp hs
      rw [List.getLast?_cons_cons, hx]

theorem shutdownErrs_append (A B : List Event) :
    shutdownErrs (A ++ B) = shutdownErrs A ++ shutdownErrs B := by
  simp [shutdownErrs]

theorem shutdownErrs_stopBlk (done : Nat → Bool) (j : Nat) (a : AppEntry)
    (acc : Option GoErr) :
    lastOr (shutdownErrs (stopBlk done j a)) acc =
      (match a.stop with
       | some (some e) => if flagOf done j a then some e else acc
       | _ => acc) := by
  rcases hstop : a.stop with _ | (_ | e) <;>
    by_cases hf : flagOf done j a <;>
      simp [stopBlk, hstop, hf, shutdownErrs, shutdownErrOf, lastOr]

theorem shutdownErrs_hookBlk (j : Nat) (a : AppEntry) (acc : Option GoErr) :
    lastOr (shutdownErrs (hookBlk j a)) acc =
      (match a.start, a.stop with
       | none, some (some e) => some e
       | _, _ => acc) := by
  rcases hstart : a.start with _ | r
  · rcases hstop : a.stop with _ | (_ | e) <;>
      simp [hookBlk, hstart, hstop, shutdownErrs, shutdownErrOf, lastOr]
  · rcases hstop : a.stop with _ | (_ | e) <;>
      simp [hookBlk, hstart, hstop, shutdownErrs, shutdownErrOf, lastOr]

theorem stopLoopErr_eq (done : Nat → Bool) :
    ∀ (rest : List AppEntry) (j : Nat) (acc : Option GoErr),
      stopLoopErr done j rest acc =
        lastOr (shutdownErrs (idxMap (stopBlk done) j rest)) acc
  | [], _, _ => rfl
  | a :: rest, j, acc => by
    rw [stopLoopErr, stopLoopErr_eq done rest (j + 1), idxMap,
      shutdownErrs_append, lastOr_append, shutdownErrs_stopBlk]

theorem hookLoopErr_eq :
    ∀ (rest : List AppEntry) (j : Nat) (acc : Option GoErr),
      hookLoopErr rest acc =
        lastOr (shutdownErrs (idxMap hookBlk j rest)) acc
  | [], _, _ => rfl
  | a :: rest, j, acc => by
    rw [hookLoopErr, hookLoopErr_eq rest (j + 1), idxMap,
      shutdownErrs_append, lastOr_append, shutdownErrs_hookBlk]

theorem shutdownErrs_startPhase (apps : List AppEntry) (j : Nat) :
    shutdownErrs (idxMap startBlk j apps) = [] := by
  refine List.filterMap_eq_nil.mpr ?_
  intro e hm
  obtain ⟨j', a', hm'⟩ := mem_idxMap hm
  rcases mem_startBlk hm' with h | h <;> subst h <;> rfl

theorem shutdownErrs_startRetPhase (done : Nat → Bool) (want : Bool)
    (apps : List AppEntry) (j : Nat) :
    shutdownErrs (idxMap (startRetBlk done want) j apps) = [] := by
  refine List.filterMap_eq_nil.mpr ?_
  intro e hm
  obtain ⟨j', a', hm'⟩ := mem_idxMap hm
  rcases (mem_startRetBlk hm').2 with h | h | ⟨r, h⟩ <;> subst h
  · rfl
  · rfl
  · cases r <;> rfl

theorem shutdownErrs_finalize (x : Option GoErr) :
    shutdownErrs (finalize x).1 = [] := by
  refine List.filterMap_eq_nil.mpr ?_
  intro e hm
  obtain ⟨lv, s, h⟩ := mem_finalize hm
  subst h
  rfl

/-- The coordinator's final `err` value equals the last stop/hook error
appearing in the run's trace. -/
theorem coordErr_eq_trace (apps : List AppEntry) (s : Sched) :
    coordErr s.startDone apps = (shutdownErrs (runTrace apps s)).getLast? := by
  rw [coordErr, hookLoopErr_eq apps 0, stopLoopErr_eq s.startDone apps 0,
    ← lastOr_append, ← shutdownErrs_append]
  rw [runTrace]
  repeat rw [shutdownErrs_append]
  rw [shutdownErrs_startPhase, shutdownErrs_startRetPhase,
    shutdownErrs_startRetPhase, shutdownErrs_finalize]
  simp only [List.nil_append, List.append_nil]
  rw [lastOr_eq_getLast?]
  generalize ((shutdownErrs (idxMap (stopBlk s.startDone) 0 apps) ++
      shutdownErrs (idxMap hookBlk 0 apps)).getLast?) = z
  cases z <;> rfl

/-! ### Counting call events -/

theorem startBlk_count_self (i : Nat) (a : AppEntry) :
    (startBlk i a).count (Event.startCall i) =
      if a.start ≠ none then 1 else 0 := by
  rcases h : a.start with _ | r <;> simp [startBlk, h]

theorem stopBlk_count_self (done : Nat → Bool) (i : Nat) (a : AppEntry) :
    (stopBlk done i a).count (Event.stopCall i) =
      if a.stop ≠ none ∧ flagOf done i a = true then 1 else 0 := by
  rcases h : a.stop with _ | (_ | e) <;>
    by_cases hf : flagOf done i a <;>
      simp [stopBlk, h, hf]

theorem hookBlk_count_self (i : Nat) (a : AppEntry) :
    (hookBlk i a).count (Event.hookCall i) =
      if a.start = none ∧ a.stop ≠ none then 1 else 0 := by
  rcases hst : a.start with _ | r
  · rcases h : a.stop with _ | (_ | e) <;> simp [hookBlk, hst, h]
  · rcases h : a.stop with _ | (_ | e) <;> simp [hookBlk, hst, h]

theorem startRetBlk_count_self (done : Nat → Bool) (want : Bool) (i : Nat)
    (a : AppEntry) :
    (startRetBlk done want i a).count (Event.startRet i none) =
      if done i = want ∧ a.start = some none then 1 else 0 := by
  rcases h : a.start with _ | (_ | e) <;>
    by_cases hd : done i = want <;>
      simp [startRetBlk, h, hd]

theorem count_finalize_zero {x : Option GoErr} {ev : Event}
    (h : ∀ lv s, ev ≠ Event.logEv lv s "") : (finalize x).1.count ev = 0 := by
  refine List.count_eq_zero.mpr ?_
  intro hm
  obtain ⟨lv, s, hs⟩ := mem_finalize hm
  exact h lv s hs

theorem countEv_runTrace_stopCall (apps : List AppEntry) (s : Sched) {i : Nat}
    (hi : i < apps.length) :
    countEv (runTrace apps s) (Event.stopCall i) =
      if (appAt apps i).stop ≠ none ∧ flagOf s.startDone i (appAt apps i) = true
      then 1 else 0 := by
  have hA : (idxMap startBlk 0 apps).count (Event.stopCall i) = 0 := by
    refine idxMap_count_zero ?_ apps 0
    intro j a hm
    rcases mem_startBlk hm with h | h <;> simp at h
  have hB : (idxMap (startRetBlk s.startDone true) 0 apps).count
      (Event.stopCall i) = 0 := by
    refine idxMap_count_zero ?_ apps 0
    intro j a hm
    rcases (mem_startRetBlk hm).2 with h | h | ⟨r, h⟩ <;> simp at h
  have hD : (idxMap hookBlk 0 apps).count (Event.stopCall i) = 0 := by
    refine idxMap_count_zero ?_ apps 0
    intro j a hm
    rcases mem_hookBlk hm with h | h | h | ⟨r, h⟩ <;> simp at h
  have hE : (idxMap (startRetBlk s.startDone false) 0 apps).count
      (Event.stopCall i) = 0 := by
    refine idxMap_count_zero ?_ apps 0
    intro j a hm
    rcases (mem_startRetBlk hm).2 with h | h | ⟨r, h⟩ <;> simp at h
  have hF : ((finalize (egFirstErr apps s)).1).count (Event.stopCall i) = 0 :=
    count_finalize_zero (by intro lv s' h; simp at h)
  have hC0 : ∀ j a, j ≠ i → Event.stopCall i ∉ stopBlk s.startDone j a := by
    intro j a hne hm
    rcases mem_stopBlk hm with h | h | h | ⟨r, h⟩ <;> simp_all
  have hrange : (0:Nat) ≤ i ∧ i < 0 + apps.length := by omega
  rw [countEv, runTrace]
  simp only [List.count_append]
  have hfold : apps.getD (i - 0) noEntry = appAt apps i := by
    simp only [Nat.sub_zero]
    rfl
  rw [hA, hB, hD, hE, hF, idxMap_count hC0 apps 0, if_pos hrange, hfold,
    stopBlk_count_self]
  omega

theorem countEv_runTrace_startCall (apps : List AppEntry) (s : Sched) {i : Nat}
    (hi : i < apps.length) :
    countEv (runTrace apps s) (Event.startCall i) =
      if (appAt apps i).start ≠ none then 1 else 0 := by
  have hB : ∀ want, (idxMap (startRetBlk s.startDone want) 0 apps).count
      (Event.startCall i) = 0 := by
    intro want
    refine idxMap_count_zero ?_ apps 0
    intro j a hm
    rcases (mem_startRetBlk hm).2 with h | h | ⟨r, h⟩ <;> simp at h
  have hC : (idxMap (stopBlk s.startDone) 0 apps).count (Event.startCall i) = 0 := by
    refine idxMap_count_zero ?_ apps 0
    intro j a hm
    rcases mem_stopBlk hm with h | h | h | ⟨r, h⟩ <;> simp at h
  have hD : (idxMap hookBlk 0 apps).count (Event.startCall i) = 0 := by
    refine idxMap_count_zero ?_ apps 0
    intro j a hm
    rcases mem_hookBlk hm with h | h | h | ⟨r, h⟩ <;> simp at h
  have hF : ((finalize (egFirstErr apps s)).1).count (Event.startCall i) = 0 :=
    count_finalize_zero (by intro lv s' h; simp at h)
  have hA0 : ∀ j a, j ≠ i → Event.startCall i ∉ startBlk j a := by
    intro j a hne hm
    rcases mem_startBlk hm with h | h <;> simp_all
  have hrange : (0:Nat) ≤ i ∧ i < 0 + apps.length := by omega
  rw [countEv, runTrace]
  simp only [List.count_append]
  have hfold : apps.getD (i - 0) noEntry = appAt apps i := by
    simp only [Nat.sub_zero]
    rfl
  rw [hB true, hB false, hC, hD, hF, idxMap_count hA0 apps 0, if_pos hrange,
    hfold, startBlk_count_self]
  omega

theorem countEv_runTrace_hookCall (apps : List AppEntry) (s : Sched) {i : Nat}
    (hi : i < apps.length) :
    countEv (runTrace apps s) (Event.hookCall i) =
      if (appAt apps i).start = none ∧ (appAt apps i).stop ≠ none
      then 1 else 0 := by
  have hA : (idxMap startBlk 0 apps).count (Event.hookCall i) = 0 := by
    refine idxMap_count_zero ?_ apps 0
    intro j a hm
    rcases mem_startBlk hm with h | h <;> simp at h
  have hB : ∀ want, (idxMap (startRetBlk s.startDone want) 0 apps).count
      (Event.hookCall i) = 0 := by
    intro want
    refine idxMap_count_zero ?_ apps 0
    intro j a hm
    rcases (mem_startRetBlk hm).2 with h | h | ⟨r, h⟩ <;> simp at h
  have hC : (idxMap (stopBlk s.startDone) 0 apps).count (Event.hookCall i) = 0 := by
    refine idxMap_count_zero ?_ apps 0
    intro j a hm
    rcases mem_stopBlk hm with h | h | h | ⟨r, h⟩ <;> simp at h
  have hF : ((finalize (egFirstErr apps s)).1).count (Event.hookCall i) = 0 :=
    count_finalize_zero (by intro lv s' h; simp at h)
  have hD0 : ∀ j a, j ≠ i → Event.hookCall i ∉ hookBlk j a := by
    intro j a hne hm
    rcases mem_hookBlk hm with h | h | h | ⟨r, h⟩ <;> simp_all
  have hrange : (0:Nat) ≤ i ∧ i < 0 + apps.length := by omega
  rw [countEv, runTrace]
  simp only [List.count_append]
  have hfold : apps.getD (i - 0) noEntry = appAt apps i := by
    simp only [Nat.sub_zero]
    rfl
  rw [hA, hB true, hB false, hC, hF, idxMap_count hD0 apps 0, if_pos hrange,
    hfold, hookBlk_count_self]
  omega

theorem countEv_runTrace_startRetNone (apps : List AppEntry) (s : Sched) {i : Nat}
    (hi : i < apps.length) :
    countEv (runTrace apps s) (Event.startRet i none) =
      if (appAt apps i).start = some none then 1 else 0 := by
  have hA : (idxMap startBlk 0 apps).count (Event.startRet i none) = 0 := by
    refine idxMap_count_zero ?_ apps 0
    intro j a hm
    rcases mem_startBlk hm with h | h <;> simp at h
  have hC : (idxMap (stopBlk s.startDone) 0 apps).count
      (Event.startRet i none) = 0 := by
    refine idxMap_count_zero ?_ apps 0
    intro j a hm
    rcases mem_stopBlk hm with h | h | h | ⟨r, h⟩ <;> simp at h
  have hD : (idxMap hookBlk 0 apps).count (Event.startRet i none) = 0 := by
    refine idxMap_count_zero ?_ apps 0
    intro j a hm
    rcases mem_hookBlk hm with h | h | h | ⟨r, h⟩ <;> simp at h
  have hF : ((finalize (egFirstErr apps s)).1).count (Event.startRet i none) = 0 :=
    count_finalize_zero (by intro lv s' h; simp at h)
  have hB0 : ∀ want j a, j ≠ i →
      Event.startRet i none ∉ startRetBlk s.startDone want j a := by
    intro want j a hne hm
    rcases (mem_startRetBlk hm).2 with h | h | ⟨r, h⟩ <;> simp_all
  have hrange : (0:Nat) ≤ i ∧ i < 0 + apps.length := by omega
  rw [countEv, runTrace]
  simp only [List.count_append]
  have hfold : apps.getD (i - 0) noEntry = appAt apps i := by
    simp only [Nat.sub_zero]
    rfl
  rw [hA, hC, hD, hF, idxMap_count (hB0 true) apps 0,
    idxMap_count (hB0 false) apps 0, if_pos hrange, if_pos hrange, hfold,
    startRetBlk_count_self, startRetBlk_count_self]
  rcases hd : s.startDone i <;>
    rcases hst : (appAt apps i).start with _ | (_ | e) <;> simp [hd, hst]

theorem finalize_count_signalLog (x : Option GoErr) :
    (finalize x).1.count (Event.logEv .debug "shutting down by signal" "") =
      if x = some GoErr.interrupted then 1 else 0 := by
  rcases x with _ | (_ | s)
  · decide
  · decide
  · simp [finalize]

theorem countEv_runTrace_signalLog (apps : List AppEntry) (s : Sched) :
    countEv (runTrace apps s) (Event.logEv .debug "shutting down by signal" "") =
      if egFirstErr apps s = some GoErr.interrupted then 1 else 0 := by
  have hA : (idxMap startBlk 0 apps).count
      (Event.logEv .debug "shutting down by signal" "") = 0 := by
    refine idxMap_count_zero ?_ apps 0
    intro j a hm
    rcases mem_startBlk hm with h | h <;> simp at h
  have hB : ∀ want, (idxMap (startRetBlk s.startDone want) 0 apps).count
      (Event.logEv .debug "shutting down by signal" "") = 0 := by
    intro want
    refine idxMap_count_zero ?_ apps 0
    intro j a hm
    rcases (mem_startRetBlk hm).2 with h | h | ⟨r, h⟩ <;> simp at h
  have hC : (idxMap (stopBlk s.startDone) 0 apps).count
      (Event.logEv .debug "shutting down by signal" "") = 0 := by
    refine idxMap_count_zero ?_ apps 0
    intro j a hm
    rcases mem_stopBlk hm with h | h | h | ⟨r, h⟩ <;> simp at h
  have hD : (idxMap hookBlk 0 apps).count
      (Event.logEv .debug "shutting down by signal" "") = 0 := by
    refine idxMap_count_zero ?_ apps 0
    intro j a hm
    rcases mem_hookBlk hm with h | h | h | ⟨r, h⟩ <;> simp at h
  rw [countEv, runTrace]
  simp only [List.count_append]
  rw [hA, hB true, hB false, hC, hD, finalize_count_signalLog]
  omega

/-! ### Helpers about registries whose calls all succeed -/

theorem allOk_mem {apps : List AppEntry} (h : allOk apps = true)
    {a : AppEntry} (ha : a ∈ apps) : appOk a = true :=
  List.all_eq_true.mp h a ha

theorem appOk_start {a : AppEntry} (h : appOk a = true) :
    a.start = none ∨ a.start = some none := by
  rcases hs : a.start with _ | (_ | e)
  · exact Or.inl rfl
  · exact Or.inr rfl
  · rw [appOk, hs] at h
    simp at h

theorem appOk_stop {a : AppEntry} (h : appOk a = true) :
    a.stop = none ∨ a.stop = some none := by
  rcases hs : a.stop with _ | (_ | e)
  · exact Or.inl rfl
  · exact Or.inr rfl
  · rw [appOk, hs] at h
    simp at h

theorem appAt_mem : ∀ {apps : List AppEntry} {i : Nat},
    i < apps.length → appAt apps i ∈ apps
  | a :: rest, 0, _ => by
    simp [appAt]
  | a :: rest, i + 1, h => by
    rw [appAt, List.getD_cons_succ]
    exact List.mem_cons_of_mem a (appAt_mem (by simpa using h))

theorem firstStartErr_none {apps : List AppEntry} (h : allOk apps = true) :
    firstStartErr apps = none := by
  induction apps with
  | nil => rfl
  | cons a rest ih =>
    rw [allOk, List.all_cons, Bool.and_eq_true] at h
    rcases appOk_start h.1 with hs | hs <;>
      simp [firstStartErr, hs, ih h.2]

theorem stopLoopErr_none (done : Nat → Bool) :
    ∀ (rest : List AppEntry) (j : Nat), (∀ a ∈ rest, appOk a = true) →
      stopLoopErr done j rest none = none
  | [], _, _ => rfl
  | a :: rest, j, h => by
    have ha := h a (List.mem_cons_self a rest)
    have hrest : ∀ b ∈ rest, appOk b = true :=
      fun b hb => h b (List.mem_cons_of_mem a hb)
    rcases appOk_stop ha with hs | hs <;>
      simp [stopLoopErr, hs, stopLoopErr_none done rest (j + 1) hrest]

theorem hookLoopErr_none :
    ∀ (rest : List AppEntry), (∀ a ∈ rest, appOk a = true) →
      hookLoopErr rest none = none
  | [], _ => rfl
  | a :: rest, h => by
    have ha := h a (List.mem_cons_self a rest)
    have hrest : ∀ b ∈ rest, appOk b = true :=
      fun b hb => h b (List.mem_cons_of_mem a hb)
    rcases appOk_stop ha with hs | hs <;> rcases hst : a.start with _ | r <;>
      simp [hookLoopErr, hs, hst, hookLoopErr_none rest hrest]

theorem coordErr_none {apps : List AppEntry} (done : Nat → Bool)
    (h : allOk apps = true) : coordErr done apps = none := by
  have hall : ∀ a ∈ apps, appOk a = true := fun a ha => allOk_mem h ha
  rw [coordErr, stopLoopErr_none done apps 0 hall, hookLoopErr_none apps hall]

/-! ### Order of stop and hook calls -/

/-- Index of a stop call event, if it is one. -/
def stopIdxOf : Event → Option Nat
  | .stopCall i => some i
  | _ => none

/-- Index of a hook call event, if it is one. -/
def hookIdxOf : Event → Option Nat
  | .hookCall i => some i
  | _ => none

/-- Registry indices of the stop calls of a trace, in order of occurrence. -/
def stopIdxs (L : List Event) : List Nat :=
  L.filterMap stopIdxOf

/-- Registry indices of the hook calls of a trace, in order of occurrence. -/
def hookIdxs (L : List Event) : List Nat :=
  L.filterMap hookIdxOf

theorem idxMap_filterMap_sorted {blk : Nat → AppEntry → List Event}
    {sel : Event → Option Nat}
    (hblk : ∀ j a, (blk j a).filterMap sel = [] ∨
      (blk j a).filterMap sel = [j]) :
    ∀ (rest : List AppEntry) (j : Nat),
      List.Pairwise (· < ·) ((idxMap blk j rest).filterMap sel) ∧
        ∀ n ∈ (idxMap blk j rest).filterMap sel, j ≤ n
  | [], j => by simp [idxMap]
  | a :: rest, j => by
    obtain ⟨hs, hb⟩ := idxMap_filterMap_sorted hblk rest (j + 1)
    rw [idxMap, List.filterMap_append]
    rcases hblk j a with h | h <;> rw [h]
    · rw [List.nil_append]
      refine ⟨hs, fun n hn => ?_⟩
      have := hb n hn
      omega
    · rw [List.singleton_append]
      constructor
      · refine List.pairwise_cons.mpr ⟨fun n hn => ?_, hs⟩
        have := hb n hn
        omega
      · intro n hn
        rcases List.mem_cons.mp hn with h' | h'
        · omega
        · have := hb n h'
          omega

theorem stopBlk_stopIdxs (done : Nat → Bool) (j : Nat) (a : AppEntry) :
    (stopBlk done j a).filterMap stopIdxOf = [] ∨
      (stopBlk done j a).filterMap stopIdxOf = [j] := by
  rcases h : a.stop with _ | (_ | e) <;> by_cases hf : flagOf done j a <;>
    simp [stopBlk, h, hf, stopIdxOf]

theorem hookBlk_hookIdxs (j : Nat) (a : AppEntry) :
    (hookBlk j a).filterMap hookIdxOf = [] ∨
      (hookBlk j a).filterMap hookIdxOf = [j] := by
  rcases hst : a.start with _ | r
  · rcases h : a.stop with _ | (_ | e) <;>
      simp [hookBlk, hst, h, hookIdxOf]
  · rcases h : a.stop with _ | (_ | e) <;>
      simp [hookBlk, hst, h, hookIdxOf]

theorem filterMap_nil_of_none {sel : Event → Option Nat} {L : List Event}
    (h : ∀ e ∈ L, sel e = none) : L.filterMap sel = [] :=
  List.filterMap_eq_nil.mpr h

theorem stopIdxs_runTrace (apps : List AppEntry) (s : Sched) :
    stopIdxs (runTrace apps s) =
      (idxMap (stopBlk s.startDone) 0 apps).filterMap stopIdxOf := by
  rw [stopIdxs, runTrace]
  repeat rw [List.filterMap_append]
  have hA : (idxMap startBlk 0 apps).filterMap stopIdxOf = [] := by
    refine filterMap_nil_of_none ?_
    intro e hm
    obtain ⟨j', a', hm'⟩ := mem_idxMap hm
    rcases mem_startBlk hm' with h | h <;> subst h <;> rfl
  have hB : ∀ want,
      (idxMap (startRetBlk s.startDone want) 0 apps).filterMap stopIdxOf = [] := by
    intro want
    refine filterMap_nil_of_none ?_
    intro e hm
    obtain ⟨j', a', hm'⟩ := mem_idxMap hm
    rcases (mem_startRetBlk hm').2 with h | h | ⟨r, h⟩ <;> subst h <;> rfl
  have hD : (idxMap hookBlk 0 apps).filterMap stopIdxOf = [] := by
    refine filterMap_nil_of_none ?_
    intro e hm
    obtain ⟨j', a', hm'⟩ := mem_idxMap hm
    rcases mem_hookBlk hm' with h | h | h | ⟨r, h⟩ <;> subst h <;> rfl
  have hF : ((finalize (egFirstErr apps s)).1).filterMap stopIdxOf = [] := by
    refine filterMap_nil_of_none ?_
    intro e hm
    obtain ⟨lv, s', h⟩ := mem_finalize hm
    subst h
    rfl
  rw [hA, hB true, hB false, hD, hF]
  simp

theorem hookIdxs_runTrace (apps : List AppEntry) (s : Sched) :
    hookIdxs (runTrace apps s) =
      (idxMap hookBlk 0 apps).filterMap hookIdxOf := by
  rw [hookIdxs, runTrace]
  repeat rw [List.filterMap_append]
  have hA : (idxMap startBlk 0 apps).filterMap hookIdxOf = [] := by
    refine filterMap_nil_of_none ?_
    intro e hm
    obtain ⟨j', a', hm'⟩ := mem_idxMap hm
    rcases mem_startBlk hm' with h | h <;> subst h <;> rfl
  have hB : ∀ want,
      (idxMap (startRetBlk s.startDone want) 0 apps).filterMap hookIdxOf = [] := by
    intro want
    refine filterMap_nil_of_none ?_
    intro e hm
    obtain ⟨j', a', hm'⟩ := mem_idxMap hm
    rcases (mem_startRetBlk hm').2 with h | h | ⟨r, h⟩ <;> subst h <;> rfl
  have hC : (idxMap (stopBlk s.startDone) 0 apps).filterMap hookIdxOf = [] := by
    refine filterMap_nil_of_none ?_
    intro e hm
    obtain ⟨j', a', hm'⟩ := mem_idxMap hm
    rcases mem_stopBlk hm' with h | h | h | ⟨r, h⟩ <;> subst h <;> rfl
  have hF : ((finalize (egFirstErr apps s)).1).filterMap hookIdxOf = [] := by
    refine filterMap_nil_of_none ?_
    intro e hm
    obtain ⟨lv, s', h⟩ := mem_finalize hm
    subst h
    rfl
  rw [hA, hB true, hB false, hC, hF]
  simp

theorem appAt_of_le_length {apps : List AppEntry} {k : Nat}
    (h : apps.length ≤ k) : appAt apps k = noEntry := by
  rw [appAt, List.getD_eq_get?, List.get?_eq_none.mpr h]
  rfl

theorem startErrOf_appAt_none {apps : List AppEntry} (h : allOk apps = true)
    (k : Nat) : startErrOf (appAt apps k) = none := by
  by_cases hk : k < apps.length
  · rcases appOk_start (allOk_mem h (appAt_mem hk)) with hs | hs <;>
      simp [startErrOf, hs]
  · rw [appAt_of_le_length (by omega)]
    rfl

theorem runResult_none_of_allOk (apps : List AppEntry) (s : Sched)
    (h : allOk apps = true) : runResult apps s = none := by
  rw [runResult]
  rcases s with ⟨tr, done⟩
  cases tr with
  | componentFailure k =>
    have hfe : egFirstErr apps ⟨.componentFailure k, done⟩ = none := by
      simp [egFirstErr, startErrOf_appAt_none h k]
    rw [hfe]
    rfl
  | externalSignal => rfl
  | callerCancelled =>
    have hfe : egFirstErr apps ⟨.callerCancelled, done⟩ = none := by
      simp [egFirstErr, firstStartErr_none h, coordErr_none done h]
    rw [hfe]
    rfl

/-! ### The claims -/

/-- Claim C8: registering a shutdown hook with a nil stop action is a
silent no-op leaving the registry unchanged, while registering one with a
non-nil action appends exactly one hook entry (nil `Start`, zero-value
name) — runner.go lines 58–67. -/
theorem claim_c8 (r : List AppEntry) (act : Option GoErr) :
    RegisterShutdownHook r none = r ∧
    RegisterShutdownHook r (some act) = r ++ [⟨"", none, some act⟩] :=
  ⟨rfl, rfl⟩

/-- Claim C10: `RegisterApp x` is `RegisterNamedApp "" x` (the source
delegates directly), so it appends exactly one entry whose name is the
empty string and whose operations are the instance's `Start`/`Stop`; the
appended entry's name is "", and in every run the launch log for such a
component carries the empty app name. -/
theorem claim_c10 (r : List AppEntry) (x : AppInst) (s : Sched) :
    RegisterApp r x = RegisterNamedApp r "" x ∧
    RegisterApp r x = r ++ [⟨"", some x.startImpl, some x.stopImpl⟩] ∧
    (appAt (RegisterApp r x) r.length).name = "" ∧
    Event.logEv .debug "start application" "" ∈ runTrace (RegisterApp r x) s := by
  have happ : appAt (RegisterApp r x) r.length =
      ⟨"", some x.startImpl, some x.stopImpl⟩ := by
    rw [RegisterApp, RegisterNamedApp, appAt, List.getD_eq_get?,
      List.get?_append_right (le_refl _)]
    simp
  refine ⟨rfl, rfl, by rw [happ], ?_⟩
  have hlen : r.length < (RegisterApp r x).length := by
    rw [RegisterApp, RegisterNamedApp]
    simp
  have hblk : Event.logEv .debug "start application" "" ∈
      startBlk (0 + r.length) ((RegisterApp r x).getD r.length noEntry) := by
    have h0 : (0:Nat) + r.length = r.length := by omega
    rw [h0]
    have : (RegisterApp r x).getD r.length noEntry =
        ⟨"", some x.startImpl, some x.stopImpl⟩ := happ
    rw [this, startBlk]
    simp
  have hmem : Event.logEv .debug "start application" "" ∈
      idxMap startBlk 0 (RegisterApp r x) :=
    mem_idxMap_intro (RegisterApp r x) 0 r.length hlen hblk
  rw [runTrace]
  exact List.mem_append_left _ (List.mem_append_left _ (List.mem_append_left _
    (List.mem_append_left _ (List.mem_append_left _ hmem))))

/-- Claim C9: the start loop launches a task for every non-hook entry
unconditionally — `eg.Go` and the `a.Start()` call never consult the
context — so even in a run whose shutdown trigger is the caller's own
(possibly already-cancelled) context, every registered non-hook
component's start is invoked exactly once (runner.go lines 81–102). -/
theorem claim_c9 (apps : List AppEntry) (s : Sched) {i : Nat}
    (hi : i < apps.length) (hnh : (appAt apps i).start ≠ none) :
    countEv (runTrace apps s) (Event.startCall i) = 1 := by
  rw [countEv_runTrace_startCall apps s hi, if_pos hnh]

theorem claim_c9_witness :
    0 < ([⟨"a", some none, some none⟩] : List AppEntry).length ∧
    (appAt [⟨"a", some none, some none⟩] 0).start ≠ none ∧
    countEv (runTrace [⟨"a", some none, some none⟩]
        ⟨Trigger.callerCancelled, fun _ => true⟩)
      (Event.startCall 0) = 1 :=
  ⟨by decide, by decide,
    claim_c9 [⟨"a", some none, some none⟩]
      ⟨Trigger.callerCancelled, fun _ => true⟩ (by decide) (by decide)⟩

/-- Claim C3: during shutdown, the stop of a registered non-hook
component is invoked iff its `started` flag (as the coordinator reads it)
is true, and at most once per run; in particular a component whose start
returned an error has a false flag and is never stopped (runner.go
lines 110–120 guard each stop by `started[i]`, set only on start
success at line 98). -/
theorem claim_c3 (apps : List AppEntry) (s : Sched) {i : Nat}
    (hi : i < apps.length) (hnh : (appAt apps i).start ≠ none)
    (hs : (appAt apps i).stop ≠ none) :
    countEv (runTrace apps s) (Event.stopCall i) =
      (if flagOf s.startDone i (appAt apps i) = true then 1 else 0) ∧
    (startErrOf (appAt apps i) ≠ none →
      countEv (runTrace apps s) (Event.stopCall i) = 0) := by
  have h1 := countEv_runTrace_stopCall apps s hi
  constructor
  · rw [h1]
    by_cases hf : flagOf s.startDone i (appAt apps i) = true
    · rw [if_pos ⟨hs, hf⟩, if_pos hf]
    · rw [if_neg (fun hc => hf hc.2), if_neg hf]
  · intro herr
    rw [h1, if_neg]
    rintro ⟨-, hf⟩
    rcases hstart : (appAt apps i).start with _ | (_ | e)
    · exact hnh hstart
    · rw [startErrOf, hstart] at herr
      exact herr rfl
    · rw [flagOf, hstart] at hf
      simp at hf

theorem claim_c3_witness :
    0 < ([⟨"a", some none, some none⟩] : List AppEntry).length ∧
    (appAt [⟨"a", some none, some none⟩] 0).start ≠ none ∧
    (appAt [⟨"a", some none, some none⟩] 0).stop ≠ none ∧
    (countEv (runTrace [⟨"a", some none, some none⟩]
          ⟨Trigger.callerCancelled, fun _ => true⟩) (Event.stopCall 0) =
        (if flagOf (fun _ => true) 0 (appAt [⟨"a", some none, some none⟩] 0) = true
         then 1 else 0) ∧
      (startErrOf (appAt [⟨"a", some none, some none⟩] 0) ≠ none →
        countEv (runTrace [⟨"a", some none, some none⟩]
            ⟨Trigger.callerCancelled, fun _ => true⟩) (Event.stopCall 0) = 0)) :=
  ⟨by decide, by decide, by decide,
    claim_c3 [⟨"a", some none, some none⟩]
      ⟨Trigger.callerCancelled, fun _ => true⟩ (by decide) (by decide) (by decide)⟩

/-- Claim C5: the coordinator performs every stop call and every hook
call itself, one at a time in a single goroutine (runner.go lines
105–134), so they are never concurrent with each other; within the stop
pass and within the hook pass the registry indices of the calls are
strictly increasing, i.e. calls follow forward registration order —
not the startup-reverse order the accompanying documentation claims. -/
theorem claim_c5 (apps : List AppEntry) (s : Sched) :
    List.Pairwise (· < ·) (stopIdxs (runTrace apps s)) ∧
    List.Pairwise (· < ·) (hookIdxs (runTrace apps s)) := by
  constructor
  · rw [stopIdxs_runTrace]
    exact (idxMap_filterMap_sorted (stopBlk_stopIdxs s.startDone) apps 0).1
  · rw [hookIdxs_runTrace]
    exact (idxMap_filterMap_sorted hookBlk_hookIdxs apps 0).1

/-- Claim C6: when shutdown is triggered by an external interrupt signal
and every start, stop and hook succeeds, the signal listener's sentinel
is the first errgroup error; `Run` converts it into a success and logs
exactly one "shutting down by signal" event (runner.go lines 137–161).
The sentinel is never surfaced: the returned value is nil. -/
theorem claim_c6 (apps : List AppEntry) (done : Nat → Bool)
    (h : allOk apps = true) :
    runResult apps ⟨Trigger.externalSignal, done⟩ = none ∧
    countEv (runTrace apps ⟨Trigger.externalSignal, done⟩)
      (Event.logEv .debug "shutting down by signal" "") = 1 := by
  have hfe : egFirstErr apps ⟨Trigger.externalSignal, done⟩ =
      some GoErr.interrupted := rfl
  constructor
  · rw [runResult, hfe]
    rfl
  · rw [countEv_runTrace_signalLog, hfe, if_pos rfl]

theorem claim_c6_witness :
    allOk [⟨"a", some none, some none⟩] = true ∧
    (runResult [⟨"a", some none, some none⟩]
        ⟨Trigger.externalSignal, fun _ => true⟩ = none ∧
      countEv (runTrace [⟨"a", some none, some none⟩]
          ⟨Trigger.externalSignal, fun _ => true⟩)
        (Event.logEv .debug "shutting down by signal" "") = 1) :=
  ⟨by decide,
    claim_c6 [⟨"a", some none, some none⟩] (fun _ => true) (by decide)⟩

/-- Claim C1 (as frozen) fails on the code: in a run where the only
component's start is still in flight when an external interrupt triggers
shutdown and then returns the error "boom", the signal listener's
sentinel is recorded in the errgroup first, so `Run` returns nil — not
the start error. The trace below contains the failing start return, yet
the run's result is success. -/
theorem claim_c1_counterexample :
    Event.startRet 0 (some (GoErr.userErr "boom")) ∈
      runTrace [⟨"a", some (some (GoErr.userErr "boom")), some none⟩]
        ⟨Trigger.externalSignal, fun _ => false⟩ ∧
    runResult [⟨"a", some (some (GoErr.userErr "boom")), some none⟩]
      ⟨Trigger.externalSignal, fun _ => false⟩ = none := by
  constructor
  · decide
  · rfl

/-- Claim C1 (amended): for every run whose shutdown is triggered by a
component start failure (`componentFailure k`), `Run` returns that
component's original start error — the conclusion does not depend on any
stop or hook outcome, so stop/hook errors during the ensuing shutdown
can never override it (runner.go lines 89–101 record the failing start's
error in the errgroup before the coordinator can return). Two provisos
the code forces: the start error must not itself be the interrupted
sentinel value (that value would be converted to success at line 152),
and a start failure that only happens after shutdown was already
triggered by a signal is not returned (see the counterexample). -/
theorem claim_c1_amended (apps : List AppEntry) (done : Nat → Bool) (k : Nat)
    (e : GoErr) (he : startErrOf (appAt apps k) = some e)
    (hni : e ≠ GoErr.interrupted) :
    runResult apps ⟨Trigger.componentFailure k, done⟩ = some e := by
  have hfe : egFirstErr apps ⟨Trigger.componentFailure k, done⟩ =
      startErrOf (appAt apps k) := rfl
  rw [runResult, hfe, he]
  cases e with
  | interrupted => exact absurd rfl hni
  | userErr s => rfl

theorem claim_c1_witness :
    startErrOf (appAt [⟨"a", some (some (GoErr.userErr "boom")), some none⟩,
        ⟨"b", some none, some (some (GoErr.userErr "stopfail"))⟩] 0) =
      some (GoErr.userErr "boom") ∧
    runResult [⟨"a", some (some (GoErr.userErr "boom")), some none⟩,
        ⟨"b", some none, some (some (GoErr.userErr "stopfail"))⟩]
      ⟨Trigger.componentFailure 0, fun _ => true⟩ =
      some (GoErr.userErr "boom") :=
  ⟨by decide,
    claim_c1_amended
      [⟨"a", some (some (GoErr.userErr "boom")), some none⟩,
       ⟨"b", some none, some (some (GoErr.userErr "stopfail"))⟩]
      (fun _ => true) 0 (GoErr.userErr "boom") (by decide) (by decide)⟩

/-- Claim C2 (as frozen) fails on the code: with a single component whose
start succeeds and whose stop fails with "stopfail", a shutdown triggered
by an external signal makes the listener record the sentinel in the
errgroup before the coordinator returns the stop error, so `eg.Wait`
yields the sentinel and `Run` returns nil — the stop error is logged but
discarded, contradicting "regardless of whether shutdown was triggered by
an external signal or by caller cancellation". -/
theorem claim_c2_counterexample :
    firstStartErr [⟨"a", some none, some (some (GoErr.userErr "stopfail"))⟩] =
      none ∧
    Event.stopRet 0 (some (GoErr.userErr "stopfail")) ∈
      runTrace [⟨"a", some none, some (some (GoErr.userErr "stopfail"))⟩]
        ⟨Trigger.externalSignal, fun _ => true⟩ ∧
    runResult [⟨"a", some none, some (some (GoErr.userErr "stopfail"))⟩]
      ⟨Trigger.externalSignal, fun _ => true⟩ = none := by
  refine ⟨rfl, ?_, rfl⟩
  decide

/-- Claim C2 (amended): in a run where no start fails and shutdown is
triggered by the caller's own cancellation, `Run` returns the last
stop/hook error of the trace (the coordinator's `err` variable,
runner.go lines 108–133, overwritten by each failing stop and hook in
order). When shutdown is triggered by an external signal the sentinel is
recorded first and the stop/hook errors are discarded (see the
counterexample); and a last stop error equal to the sentinel value
itself would be converted to success at line 152. -/
theorem claim_c2_amended (apps : List AppEntry) (done : Nat → Bool) (e : GoErr)
    (hns : firstStartErr apps = none)
    (hlast : (shutdownErrs
        (runTrace apps ⟨Trigger.callerCancelled, done⟩)).getLast? = some e)
    (hni : e ≠ GoErr.interrupted) :
    runResult apps ⟨Trigger.callerCancelled, done⟩ = some e := by
  have hce : coordErr done apps = some e := by
    rw [coordErr_eq_trace apps ⟨Trigger.callerCancelled, done⟩]
    exact hlast
  have hfe : egFirstErr apps ⟨Trigger.callerCancelled, done⟩ =
      coordErr done apps := by
    simp [egFirstErr, hns]
  rw [runResult, hfe, hce]
  cases e with
  | interrupted => exact absurd rfl hni
  | userErr s => rfl

theorem claim_c2_witness :
    firstStartErr [⟨"a", some none, some (some (GoErr.userErr "e1"))⟩,
        ⟨"", none, some (some (GoErr.userErr "e2"))⟩] = none ∧
    (shutdownErrs (runTrace
        [⟨"a", some none, some (some (GoErr.userErr "e1"))⟩,
         ⟨"", none, some (some (GoErr.userErr "e2"))⟩]
        ⟨Trigger.callerCancelled, fun _ => true⟩)).getLast? =
      some (GoErr.userErr "e2") ∧
    runResult [⟨"a", some none, some (some (GoErr.userErr "e1"))⟩,
        ⟨"", none, some (some (GoErr.userErr "e2"))⟩]
      ⟨Trigger.callerCancelled, fun _ => true⟩ = some (GoErr.userErr "e2") :=
  ⟨by decide, by decide,
    claim_c2_amended
      [⟨"a", some none, some (some (GoErr.userErr "e1"))⟩,
       ⟨"", none, some (some (GoErr.userErr "e2"))⟩]
      (fun _ => true) (GoErr.userErr "e2") (by decide) (by decide) (by decide)⟩

/-- Claim C4: every registered hook (nil `Start`, non-nil `Stop`) has its
action invoked exactly once in every run that reaches shutdown —
regardless of trigger and of any stop failures, since the hook loop
(runner.go lines 123–131) is unconditional — and every hook call occurs
after every non-hook stop call, because the coordinator runs the stop
loop to completion before the hook loop. -/
theorem claim_c4 (apps : List AppEntry) (s : Sched) {i : Nat}
    (hi : i < apps.length) (hhk : (appAt apps i).start = none)
    (hs : (appAt apps i).stop ≠ none) :
    countEv (runTrace apps s) (Event.hookCall i) = 1 ∧
    ∀ p q m n, (runTrace apps s).get? p = some (Event.stopCall m) →
      (runTrace apps s).get? q = some (Event.hookCall n) → p < q := by
  constructor
  · rw [countEv_runTrace_hookCall apps s hi, if_pos ⟨hhk, hs⟩]
  · intro p q m n hp hq
    refine pos_split
      (X := (idxMap startBlk 0 apps ++
        idxMap (startRetBlk s.startDone true) 0 apps) ++
        idxMap (stopBlk s.startDone) 0 apps)
      (Y := idxMap hookBlk 0 apps ++
        (idxMap (startRetBlk s.startDone false) 0 apps ++
          (finalize (egFirstErr apps s)).1))
      (P := fun e => ∃ u, e = Event.stopCall u)
      (Q := fun e => ∃ u, e = Event.hookCall u)
      ?_ ?_ ?_ hp ⟨m, rfl⟩ hq ⟨n, rfl⟩
    · simp [runTrace, List.append_assoc]
    · intro e hm hP
      obtain ⟨u, rfl⟩ := hP
      rcases List.mem_append.mp hm with h | h
      · obtain ⟨j', a', h'⟩ := mem_idxMap h
        rcases mem_hookBlk h' with h'' | h'' | h'' | ⟨r, h''⟩ <;> simp at h''
      rcases List.mem_append.mp h with h | h
      · obtain ⟨j', a', h'⟩ := mem_idxMap h
        rcases (mem_startRetBlk h').2 with h'' | h'' | ⟨r, h''⟩ <;> simp at h''
      obtain ⟨lv, s', h''⟩ := mem_finalize h
      simp at h''
    · intro e hm hQ
      obtain ⟨u, rfl⟩ := hQ
      rcases List.mem_append.mp hm with h | h
      · rcases List.mem_append.mp h with h' | h'
        · obtain ⟨j', a', h''⟩ := mem_idxMap h'
          rcases mem_startBlk h'' with h3 | h3 <;> simp at h3
        · obtain ⟨j', a', h''⟩ := mem_idxMap h'
          rcases (mem_startRetBlk h'').2 with h3 | h3 | ⟨r, h3⟩ <;> simp at h3
      · obtain ⟨j', a', h''⟩ := mem_idxMap h
        rcases mem_stopBlk h'' with h3 | h3 | h3 | ⟨r, h3⟩ <;> simp at h3

theorem claim_c4_witness :
    1 < ([⟨"w", some none, some none⟩, ⟨"", none, some none⟩] :
      List AppEntry).length ∧
    (appAt [⟨"w", some none, some none⟩, ⟨"", none, some none⟩] 1).start =
      none ∧
    (appAt [⟨"w", some none, some none⟩, ⟨"", none, some none⟩] 1).stop ≠
      none ∧
    (countEv (runTrace [⟨"w", some none, some none⟩, ⟨"", none, some none⟩]
          ⟨Trigger.externalSignal, fun _ => true⟩) (Event.hookCall 1) = 1 ∧
      ∀ p q m n,
        (runTrace [⟨"w", some none, some none⟩, ⟨"", none, some none⟩]
            ⟨Trigger.externalSignal, fun _ => true⟩).get? p =
          some (Event.stopCall m) →
        (runTrace [⟨"w", some none, some none⟩, ⟨"", none, some none⟩]
            ⟨Trigger.externalSignal, fun _ => true⟩).get? q =
          some (Event.hookCall n) → p < q) :=
  ⟨by decide, by decide, by decide,
    claim_c4 [⟨"w", some none, some none⟩, ⟨"", none, some none⟩]
      ⟨Trigger.externalSignal, fun _ => true⟩ (by decide) (by decide) (by decide)⟩

/-- Claim C7 (as frozen) fails on the code: with one component whose
start and stop both succeed, if an external interrupt triggers shutdown
while that start is still in flight, the coordinator reads the
unsynchronized `started` flag as false and skips the stop (runner.go
line 111) — the start nevertheless returns success during the run, yet
the stop is called zero times, not exactly once. -/
theorem claim_c7_counterexample :
    allOk [⟨"a", some none, some none⟩] = true ∧
    Event.startRet 0 none ∈
      runTrace [⟨"a", some none, some none⟩]
        ⟨Trigger.externalSignal, fun _ => false⟩ ∧
    runResult [⟨"a", some none, some none⟩]
      ⟨Trigger.externalSignal, fun _ => false⟩ = none ∧
    countEv (runTrace [⟨"a", some none, some none⟩]
        ⟨Trigger.externalSignal, fun _ => false⟩) (Event.stopCall 0) = 0 := by
  refine ⟨by decide, by decide, rfl, by decide⟩

/-- Claim C7 (amended): for all registries in which every start and stop
succeed, every non-hook entry has a stop operation (as every entry
registered through `RegisterApp`/`RegisterNamedApp` does), and — the
amendment the race forces — every start task has completed before the
coordinator reads the `started` flags, `Run` returns success, each
component's start and stop are called exactly once, the start's
successful return appears exactly once in the trace, and every stop call
of a component occurs strictly after that component's start has
returned. A component still mid-start when shutdown begins is skipped by
the stop phase (see the counterexample). -/
theorem claim_c7_amended (apps : List AppEntry) (s : Sched)
    (hok : allOk apps = true) (hdone : ∀ i, s.startDone i = true)
    (hstop : ∀ a ∈ apps, a.start ≠ none → a.stop ≠ none) :
    runResult apps s = none ∧
    ∀ i, i < apps.length → (appAt apps i).start ≠ none →
      countEv (runTrace apps s) (Event.startCall i) = 1 ∧
      countEv (runTrace apps s) (Event.stopCall i) = 1 ∧
      countEv (runTrace apps s) (Event.startRet i none) = 1 ∧
      ∀ p q, (runTrace apps s).get? p = some (Event.startRet i none) →
        (runTrace apps s).get? q = some (Event.stopCall i) → p < q := by
  refine ⟨runResult_none_of_allOk apps s hok, ?_⟩
  intro i hi hnh
  have hmem := appAt_mem hi
  have hstart : (appAt apps i).start = some none := by
    rcases appOk_start (allOk_mem hok hmem) with h' | h'
    · exact absurd h' hnh
    · exact h'
  have hstopn : (appAt apps i).stop ≠ none := hstop _ hmem hnh
  have hflag : flagOf s.startDone i (appAt apps i) = true := by
    rw [flagOf, hstart, hdone i]
    decide
  refine ⟨?_, ?_, ?_, ?_⟩
  · rw [countEv_runTrace_startCall apps s hi, if_pos hnh]
  · rw [countEv_runTrace_stopCall apps s hi, if_pos ⟨hstopn, hflag⟩]
  · rw [countEv_runTrace_startRetNone apps s hi, if_pos hstart]
  · intro p q hp hq
    refine pos_split
      (X := idxMap startBlk 0 apps ++
        idxMap (startRetBlk s.startDone true) 0 apps)
      (Y := idxMap (stopBlk s.startDone) 0 apps ++
        (idxMap hookBlk 0 apps ++
          (idxMap (startRetBlk s.startDone false) 0 apps ++
            (finalize (egFirstErr apps s)).1)))
      (P := fun e => e = Event.startRet i none)
      (Q := fun e => e = Event.stopCall i)
      ?_ ?_ ?_ hp rfl hq rfl
    · simp [runTrace, List.append_assoc]
    · intro e hm hP
      subst hP
      rcases List.mem_append.mp hm with h | h
      · obtain ⟨j', a', h'⟩ := mem_idxMap h
        rcases mem_stopBlk h' with h'' | h'' | h'' | ⟨r, h''⟩ <;> simp at h''
      rcases List.mem_append.mp h with h | h
      · obtain ⟨j', a', h'⟩ := mem_idxMap h
        rcases mem_hookBlk h' with h'' | h'' | h'' | ⟨r, h''⟩ <;> simp at h''
      rcases List.mem_append.mp h with h | h
      · obtain ⟨j', a', h'⟩ := mem_idxMap h
        obtain ⟨hd, hsh⟩ := mem_startRetBlk h'
        rcases hsh with h'' | h'' | ⟨r, h''⟩
        · simp at h''
        · simp at h''
        · injection h'' with h1 h2
          subst h1
          rw [hdone i] at hd
          simp at hd
      · obtain ⟨lv, s', h''⟩ := mem_finalize h
        simp at h''
    · intro e hm hQ
      subst hQ
      rcases List.mem_append.mp hm with h | h
      · obtain ⟨j', a', h'⟩ := mem_idxMap h
        rcases mem_startBlk h' with h'' | h'' <;> simp at h''
      · obtain ⟨j', a', h'⟩ := mem_idxMap h
        rcases (mem_startRetBlk h').2 with h'' | h'' | ⟨r, h''⟩ <;> simp at h''

theorem claim_c7_witness :
    allOk [⟨"a", some none, some none⟩] = true ∧
    (∀ i : Nat, (fun _ : Nat => true) i = true) ∧
    (∀ a ∈ ([⟨"a", some none, some none⟩] : List AppEntry),
      a.start ≠ none → a.stop ≠ none) ∧
    (runResult [⟨"a", some none, some none⟩]
        ⟨Trigger.callerCancelled, fun _ => true⟩ = none ∧
      ∀ i, i < ([⟨"a", some none, some none⟩] : List AppEntry).length →
        (appAt [⟨"a", some none, some none⟩] i).start ≠ none →
        countEv (runTrace [⟨"a", some none, some none⟩]
            ⟨Trigger.callerCancelled, fun _ => true⟩)
          (Event.startCall i) = 1 ∧
        countEv (runTrace [⟨"a", some none, some none⟩]
            ⟨Trigger.callerCancelled, fun _ => true⟩)
          (Event.stopCall i) = 1 ∧
        countEv (runTrace [⟨"a", some none, some none⟩]
            ⟨Trigger.callerCancelled, fun _ => true⟩)
          (Event.startRet i none) = 1 ∧
        ∀ p q, (runTrace [⟨"a", some none, some none⟩]
              ⟨Trigger.callerCancelled, fun _ => true⟩).get? p =
            some (Event.startRet i none) →
          (runTrace [⟨"a", some none, some none⟩]
              ⟨Trigger.callerCancelled, fun _ => true⟩).get? q =
            some (Event.stopCall i) → p < q) :=
  ⟨by decide, fun _ => rfl, by decide,
    claim_c7_amended [⟨"a", some none, some none⟩]
      ⟨Trigger.callerCancelled, fun _ => true⟩
      (by decide) (fun _ => rfl) (by decide)⟩
